import Mathlib

/-!
Verification of the sapphire.rs reconciliation engine (crates/shard).

This file gives a shallow embedding of the core data model and pure logic of
the `shard` crate — the manifest model (`core/manifest.rs`), the package
processor / diff engine (`package/processor.rs`), the multi-manifest merge and
implied-uninstall logic (`shard/apply.rs`), and the shard lifecycle manager
(`shard/manager.rs`) — and proves or refutes the specification claims about
them.  External effects (the brew actuator, the filesystem, interactive
prompts) are abstracted as explicit inputs: an actuator call becomes the
`Except String Unit` result it would return, the filesystem becomes an
explicit record of shard names, and each interactive confirmation becomes a
boolean parameter.  Printing is ignored; everything else follows the Rust
source line by line.
-/

set_option autoImplicit false

namespace Sapphire

/-- Package state (present, absent, latest); `core/manifest.rs`. -/
inductive PackageState where
  | present
  | absent
  | latest
deriving DecidableEq, Repr

/-- Homebrew formula declaration; `core/manifest.rs`. -/
structure Formula where
  name : String
  version : String
  options : List String
  state : PackageState
deriving DecidableEq, Repr

/-- Homebrew cask declaration; `core/manifest.rs`. -/
structure Cask where
  name : String
  version : String
  options : List String
  state : PackageState
deriving DecidableEq, Repr

/-- Homebrew tap declaration; `core/manifest.rs`. -/
structure Tap where
  name : String
deriving DecidableEq, Repr

/-- Manifest metadata; `core/manifest.rs`.  `protection_level` is a `u8` in the
source, so it is a `Nat` that the code keeps below 256. -/
structure Metadata where
  description : String
  «protected» : Bool
  version : String
  allowed_users : List String
  protection_level : Nat
deriving DecidableEq, Repr

/-- Package manifest for Shard; `core/manifest.rs`.  `formulas`/`casks` are the
structured declarations, `formulae`/`brews` the simplified string lists. -/
structure Manifest where
  formulas : List Formula
  casks : List Cask
  taps : List Tap
  formulae : List String
  brews : List String
  metadata : Metadata
deriving DecidableEq, Repr

/-- `default_version()` in `core/manifest.rs`. -/
def default_version : String := "latest"

/-- `default_state()` in `core/manifest.rs`: the serde default is `Present`. -/
def default_state : PackageState := PackageState.present

/-- `Manifest::new()` in `core/manifest.rs`. -/
def Manifest.new : Manifest :=
  { formulas := []
    casks := []
    taps := []
    formulae := []
    brews := []
    metadata :=
      { description := "Package manifest"
        «protected» := false
        version := "0.1.0"
        allowed_users := []
        protection_level := 0 } }

/-- `Manifest::can_modify` in `core/manifest.rs`: the username argument is
ignored (`_username`); only the `protected` flag is consulted. -/
def Manifest.can_modify (m : Manifest) (_username : String) : Bool :=
  !m.metadata.«protected»

/-! ### TOML values

`Manifest::from_file` parses the file into a generic `toml::Value` and walks
it; `Manifest::to_file` builds a `toml::value::Table` and serialises it.  The
byte-level encode/decode is the external `toml` crate (out of scope per the
spec); we model the parsed value directly, with tables as association lists. -/

/-- A parsed TOML value (`toml::Value`). -/
inductive Toml where
  | str (s : String)
  | boolean (b : Bool)
  | int (n : Int)
  | arr (xs : List Toml)
  | table (kvs : List (String × Toml))

/-- `toml::Value::as_str`. -/
def Toml.asStr? : Toml → Option String
  | .str s => some s
  | _ => none

/-- `toml::Value::as_bool`. -/
def Toml.asBool? : Toml → Option Bool
  | .boolean b => some b
  | _ => none

/-- `toml::Value::as_integer`. -/
def Toml.asInteger? : Toml → Option Int
  | .int n => some n
  | _ => none

/-- `toml::Value::as_array`. -/
def Toml.asArray? : Toml → Option (List Toml)
  | .arr xs => some xs
  | _ => none

/-- `toml::Value::as_table`. -/
def Toml.asTable? : Toml → Option (List (String × Toml))
  | .table kvs => some kvs
  | _ => none

/-- Key lookup in a TOML table (`Value::get`). -/
def tomlGet (kvs : List (String × Toml)) (k : String) : Option Toml :=
  (kvs.find? (fun kv => kv.1 = k)).map (fun kv => kv.2)

/-- The repeated array-reading pattern of `Manifest::from_file`: when the
optional value is an array, collect its string entries (non-strings are
skipped); otherwise the empty list. -/
def tomlStringArray (v : Option Toml) : List String :=
  match v.bind Toml.asArray? with
  | none => []
  | some xs => xs.filterMap Toml.asStr?

/-- The same pattern with an arbitrary per-element reader. -/
def tomlFilterArray {α : Type} (v : Option Toml) (f : Toml → Option α) : List α :=
  match v.bind Toml.asArray? with
  | none => []
  | some xs => xs.filterMap f

/-- Rust `str::split_once` on a character: split at the first occurrence. -/
def splitOnceList (c : Char) : List Char → Option (List Char × List Char)
  | [] => none
  | x :: xs =>
    if x = c then some ([], xs)
    else match splitOnceList c xs with
      | none => none
      | some (l, r) => some (x :: l, r)

/-- Rust `str::split_once(':')` lifted to `String`. -/
def splitOnce (s : String) (c : Char) : Option (String × String) :=
  match splitOnceList c s.data with
  | none => none
  | some (l, r) => some (String.mk l, String.mk r)

/-- Rust `str::trim`: drop whitespace from both ends.  (Implemented over the
character list so that it evaluates by kernel reduction.) -/
def strTrim (s : String) : String :=
  String.mk (((s.data.dropWhile Char.isWhitespace).reverse.dropWhile
    Char.isWhitespace).reverse)

/-- The prefix of `s` before its first `':'` (Rust `&s[..s.find(':')]`, or all
of `s` when there is no colon); used by `Manifest::to_file` for duplicate
tracking. -/
def namePart (s : String) : String :=
  String.mk (s.data.takeWhile (fun c => c ≠ ':'))

/-- The metadata block of `Manifest::from_file`: each field overrides the
`Manifest::new` default when present with the right type.  The
`protection_level as u8` cast is `% 256`. -/
def parseMetadata (parsed : List (String × Toml)) : Metadata :=
  let dflt := Manifest.new.metadata
  match (tomlGet parsed "metadata").bind Toml.asTable? with
  | none => dflt
  | some t =>
    { description := ((tomlGet t "description").bind Toml.asStr?).getD dflt.description
      «protected» := ((tomlGet t "protected").bind Toml.asBool?).getD dflt.«protected»
      version := ((tomlGet t "version").bind Toml.asStr?).getD dflt.version
      allowed_users := tomlStringArray (tomlGet t "allowed_users")
      protection_level :=
        match (tomlGet t "protection_level").bind Toml.asInteger? with
        | none => dflt.protection_level
        | some n => (n % 256).toNat }

/-- One entry of the structured `formulas` array in `Manifest::from_file`:
requires a table with a string `name`; `version` defaults to "latest",
`options` collects the string entries, and the state is always
`default_state()` (the file's state field is never read). -/
def parseStructuredFormula (v : Toml) : Option Formula :=
  match v.asTable? with
  | none => none
  | some t =>
    match (tomlGet t "name").bind Toml.asStr? with
    | none => none
    | some name =>
      some
        { name := name
          version := ((tomlGet t "version").bind Toml.asStr?).getD "latest"
          options := tomlStringArray (tomlGet t "options")
          state := default_state }

/-- One entry of the structured `casks` array in `Manifest::from_file`. -/
def parseStructuredCask (v : Toml) : Option Cask :=
  match v.asTable? with
  | none => none
  | some t =>
    match (tomlGet t "name").bind Toml.asStr? with
    | none => none
    | some name =>
      some
        { name := name
          version := ((tomlGet t "version").bind Toml.asStr?).getD "latest"
          options := tomlStringArray (tomlGet t "options")
          state := default_state }

/-- The structured duplicate `Manifest::from_file` pushes for one simplified
`formulae` entry: `"name:version"` splits at the first colon (both parts
trimmed), plain `"name"` gets version "latest"; options are empty and the
state is `default_state()`. -/
def parseSimplifiedFormula (s : String) : Formula :=
  match splitOnce s ':' with
  | some (name, version) =>
    { name := strTrim name, version := strTrim version, options := [], state := default_state }
  | none =>
    { name := strTrim s, version := "latest", options := [], state := default_state }

/-- The structured duplicate `Manifest::from_file` pushes for one simplified
`brews` entry. -/
def parseSimplifiedCask (s : String) : Cask :=
  match splitOnce s ':' with
  | some (name, version) =>
    { name := strTrim name, version := strTrim version, options := [], state := default_state }
  | none =>
    { name := strTrim s, version := "latest", options := [], state := default_state }

/-- `Manifest::from_file` (`core/manifest.rs` lines 132-305) after the `toml`
crate has parsed the file into a top-level table: metadata, taps, structured
`formulas`/`casks`, then the simplified `formulae`/`brews` lists, each
simplified entry being pushed both to the string list and (as a structured
duplicate) to `formulas`/`casks`. -/
def Manifest.from_file (parsed : List (String × Toml)) : Manifest :=
  let metadata := parseMetadata parsed
  let taps := (tomlStringArray (tomlGet parsed "taps")).map (fun s => ({ name := s } : Tap))
  let structuredFormulas := tomlFilterArray (tomlGet parsed "formulas") parseStructuredFormula
  let structuredCasks := tomlFilterArray (tomlGet parsed "casks") parseStructuredCask
  let formulaeList := tomlStringArray (tomlGet parsed "formulae")
  let brewsList := tomlStringArray (tomlGet parsed "brews")
  { formulas := structuredFormulas ++ formulaeList.map parseSimplifiedFormula
    casks := structuredCasks ++ brewsList.map parseSimplifiedCask
    taps := taps
    formulae := formulaeList
    brews := brewsList
    metadata := metadata }

/-- The simplified string `Manifest::to_file` emits for one structured
formula: plain name when the version is "latest", else `name:version`. -/
def formulaEntryString (name version : String) : String :=
  if version = "latest" then name else name ++ ":" ++ version

/-- The `formulae` array `Manifest::to_file` writes: every structured formula
flattened by `formulaEntryString`, then the entries of the `formulae` string
list whose name part is not already taken. -/
def formulaeStrings (m : Manifest) : List String :=
  let start := (m.formulas.map (fun f => formulaEntryString f.name f.version),
                m.formulas.map (fun f => f.name))
  (m.formulae.foldl
    (fun (acc : List String × List String) f =>
      let name := namePart f
      if acc.2.contains name then acc else (acc.1 ++ [f], acc.2 ++ [name]))
    start).1

/-- The `brews` array `Manifest::to_file` writes (casks flattened the same
way). -/
def brewsStrings (m : Manifest) : List String :=
  let start := (m.casks.map (fun c => formulaEntryString c.name c.version),
                m.casks.map (fun c => c.name))
  (m.brews.foldl
    (fun (acc : List String × List String) b =>
      let name := namePart b
      if acc.2.contains name then acc else (acc.1 ++ [b], acc.2 ++ [name]))
    start).1

/-- The metadata table `Manifest::to_file` writes (all five fields, always). -/
def metadataTable (md : Metadata) : List (String × Toml) :=
  [("description", Toml.str md.description),
   ("protected", Toml.boolean md.«protected»),
   ("version", Toml.str md.version),
   ("allowed_users", Toml.arr (md.allowed_users.map Toml.str)),
   ("protection_level", Toml.int (md.protection_level : Int))]

/-- `Manifest::to_file` (`core/manifest.rs` lines 308-407) up to the `toml`
crate's byte encoding: the table it serialises.  Structured declarations are
flattened to the simplified string form (dropping options and state); the
`taps`/`formulae`/`brews` keys are only written when non-empty. -/
def Manifest.to_file (m : Manifest) : List (String × Toml) :=
  let taps := m.taps.map (fun t => Toml.str t.name)
  let formulae := (formulaeStrings m).map Toml.str
  let brews := (brewsStrings m).map Toml.str
  [("metadata", Toml.table (metadataTable m.metadata))]
    ++ (if taps.isEmpty then [] else [("taps", Toml.arr taps)])
    ++ (if formulae.isEmpty then [] else [("formulae", Toml.arr formulae)])
    ++ (if brews.isEmpty then [] else [("brews", Toml.arr brews)])

/-- Boolean set equality of two lists (same members, ignoring order and
multiplicity). -/
def listSetEqb {α : Type} [DecidableEq α] (a b : List α) : Bool :=
  a.all (fun x => b.contains x) && b.all (fun x => a.contains x)

/-- Declaration-set equality of two manifests, as the round-trip claim uses
it: equal sets of formula, cask and tap declarations (each declaration
compared with its state and options) and equal metadata. -/
def declSetEq (a b : Manifest) : Bool :=
  listSetEqb a.formulas b.formulas && listSetEqb a.casks b.casks &&
    listSetEqb a.taps b.taps && decide (a.metadata = b.metadata)

/-! ### Package processor (`package/processor.rs`) -/

/-- The data the `PackageInfo` trait exposes to the processor; also the
`SimplePackage` struct built in `shard/apply.rs`. -/
structure SimplePackage where
  name : String
  state : PackageState
  options : List String
deriving DecidableEq, Repr

/-- `PackageProcessResult` in `package/processor.rs`. -/
structure PackageProcessResult where
  to_install : List String := []
  to_upgrade : List String := []
  with_options : List (String × List String) := []
  to_uninstall : List String := []
deriving DecidableEq, Repr

/-- The loop body of `PackageProcessor::process_packages` (lines 584-626) for
one declaration, with the processor's `installed_packages` list explicit.  The
`suppress_messages` flag only affects printing and is dropped. -/
def processPackagesStep (installed : List String) (result : PackageProcessResult)
    (package : SimplePackage) : PackageProcessResult :=
  let has_options := !package.options.isEmpty
  let is_installed := installed.contains package.name
  match package.state with
  | .absent =>
    if is_installed then
      { result with to_uninstall := result.to_uninstall ++ [package.name] }
    else result
  | .latest =>
    if has_options then
      { result with with_options := result.with_options ++ [(package.name, package.options)] }
    else if is_installed then
      { result with to_upgrade := result.to_upgrade ++ [package.name] }
    else
      { result with to_install := result.to_install ++ [package.name] }
  | .present =>
    if has_options then
      if !is_installed then
        { result with with_options := result.with_options ++ [(package.name, package.options)] }
      else result
    else if !is_installed then
      { result with to_install := result.to_install ++ [package.name] }
    else result

/-- `PackageProcessor::process_packages` (lines 576-629): fold the step over
the declaration list, starting from the empty result. -/
def process_packages (installed : List String) (packages : List SimplePackage) :
    PackageProcessResult :=
  packages.foldl (processPackagesStep installed) {}

/-! ### Actuator error handling (`package/processor.rs`)

Each helper runs one brew command and post-processes its result; the command
itself is abstracted as the `Except String Unit` it returns, with the error
message carried as a string exactly as the Rust matches on it. -/

/-- Whether `pat` starts `s` (character list version of `str::starts_with`). -/
def charsStartWith : List Char → List Char → Bool
  | [], _ => true
  | _ :: _, [] => false
  | a :: as, b :: bs => if a = b then charsStartWith as bs else false

/-- Whether `pat` occurs inside `s` (character list version). -/
def charsContainSub (pat : List Char) : List Char → Bool
  | [] => pat.isEmpty
  | b :: bs => if charsStartWith pat (b :: bs) then true else charsContainSub pat bs

/-- Rust `str::contains(pat)` for plain string patterns. -/
def containsSubstr (s pat : String) : Bool :=
  charsContainSub pat.data s.data

/-- The result handling of `execute_brew_command` (lines 81-117): an error
whose message contains "already installed" is converted to success; any other
error is returned. -/
def execute_brew_command (command : Except String Unit) : Except String Unit :=
  match command with
  | .ok _ => .ok ()
  | .error e => if containsSubstr e "already installed" then .ok () else .error e

/-- The result handling of `uninstall_package` (lines 223-239): an error
whose message contains "is not installed" is converted to success ("skipping");
any other error is returned. -/
def uninstall_package (result : Except String Unit) : Except String Unit :=
  match result with
  | .ok _ => .ok ()
  | .error e => if containsSubstr e "is not installed" then .ok () else .error e

/-- The result handling of `add_tap` (lines 245-260): an error whose message
contains "already tapped" is converted to success; any other error is
returned. -/
def add_tap (result : Except String Unit) : Except String Unit :=
  match result with
  | .ok _ => .ok ()
  | .error e => if containsSubstr e "already tapped" then .ok () else .error e

/-- The tap loop of `process_taps` (`shard/apply.rs` lines 53-55):
`for tap in taps_to_add { add_tap(&tap.name)?; }`.  The actuator gives each
raw result; the returned list records which taps were attempted, and the `?`
makes the first fatal error return immediately. -/
def process_taps_run (actuator : String → Except String Unit) :
    (attempted : List String) → (taps : List String) → List String × Except String Unit
  | attempted, [] => (attempted, .ok ())
  | attempted, tap :: rest =>
    match add_tap (actuator tap) with
    | .ok _ => process_taps_run actuator (attempted ++ [tap]) rest
    | .error e => (attempted ++ [tap], .error e)

/-- The uninstall loop of `PackageProcessor::execute_operations`
(`package/processor.rs` lines 690-693):
`for name in &result.to_uninstall { uninstall_package(..., name, true)?; }`. -/
def execute_uninstalls_run (actuator : String → Except String Unit) :
    (attempted : List String) → (names : List String) → List String × Except String Unit
  | attempted, [] => (attempted, .ok ())
  | attempted, name :: rest =>
    match uninstall_package (actuator name) with
    | .ok _ => execute_uninstalls_run actuator (attempted ++ [name]) rest
    | .error e => (attempted ++ [name], .error e)

/-! ### Implied uninstall (`shard/apply.rs`, `package/processor.rs`) -/

/-- `get_all_main_packages` (`package/processor.rs` lines 325-342) with the
three inventory queries explicit: formulae are filtered by the dependency
list, casks are returned unfiltered. -/
def get_all_main_packages (all_formulae all_casks deps : List String) :
    List String × List String :=
  (all_formulae.filter (fun f => !deps.contains f), all_casks)

/-- The uninstall sets computed by `process_implied_uninstalls`. -/
structure ImpliedUninstalls where
  formulae : List String
  casks : List String
deriving DecidableEq, Repr

/-- The selection logic of `process_implied_uninstalls` (`shard/apply.rs`
lines 430-475): every main package whose name is not among the processed
(merged desired) names is uninstalled.  There is no further filtering. -/
def process_implied_uninstalls (installed_formulae installed_casks deps
    processed_formula_names processed_cask_names : List String) : ImpliedUninstalls :=
  let main := get_all_main_packages installed_formulae installed_casks deps
  { formulae := main.1.filter (fun name => !processed_formula_names.contains name)
    casks := main.2.filter (fun name => !processed_cask_names.contains name) }

/-- Modelled from the spec: the fixed critical-package allowlist ("shell, core
VCS, TLS library, etc.") that the spec's implied-uninstall step must never
touch.  No such list exists anywhere in the source; this definition follows
the spec's wording so that the spec behaviour can be compared with the code. -/
def criticalAllowlist : List String := ["bash", "zsh", "git", "openssl"]

/-- Modelled from the spec: implied uninstall for formulae as the spec states
it — `mainFormulae = installedFormulae − dependencyFormulae`, uninstall those
absent from the merged desired set and absent from the critical allowlist. -/
def specImpliedUninstallFormulae (installed deps desired : List String) : List String :=
  (installed.filter (fun f => !deps.contains f)).filter
    (fun n => !desired.contains n && !criticalAllowlist.contains n)

/-! ### Multi-manifest merge (`shard/apply.rs`) -/

/-- The loop body of `deduplicate_packages` (`shard/apply.rs` lines 585-613):
a new name is appended; a repeated name upgrades the stored state to `Latest`
when the new state is `Latest` and the stored one is not, and in that case a
non-empty new options list replaces the stored one. -/
def deduplicatePackagesStep (result : List (String × PackageState × List String))
    (p : String × PackageState × List String) :
    List (String × PackageState × List String) :=
  match result.findIdx? (fun q => q.1 = p.1) with
  | none => result ++ [p]
  | some idx =>
    match result.get? idx with
    | none => result
    | some q =>
      if p.2.1 = PackageState.latest ∧ q.2.1 ≠ PackageState.latest then
        result.set idx (q.1, PackageState.latest, if p.2.2.isEmpty then q.2.2 else p.2.2)
      else result

/-- `deduplicate_packages` (`shard/apply.rs` lines 585-613). -/
def deduplicate_packages (packages : List (String × PackageState × List String)) :
    List (String × PackageState × List String) :=
  packages.foldl deduplicatePackagesStep []

/-- The declarations one manifest contributes to the merged ("apply all")
package list (`shard/apply.rs` lines 556-564): its structured formulas with
state ≠ Absent, as (name, state, options) triples. -/
def manifestFormulaDecls (m : Manifest) : List (String × PackageState × List String) :=
  (m.formulas.filter (fun f => f.state ≠ PackageState.absent)).map
    (fun f => (f.name, f.state, f.options))

/-- The concatenated declaration list over a list of manifests, in manifest
order (`shard/apply.rs` lines 548-578). -/
def collectManifestFormulae (ms : List Manifest) : List (String × PackageState × List String) :=
  (ms.map manifestFormulaDecls).flatten

/-- The merged desired formula list for "apply all": collect then deduplicate
(`shard/apply.rs` lines 616). -/
def mergeManifests (ms : List Manifest) : List (String × PackageState × List String) :=
  deduplicate_packages (collectManifestFormulae ms)

/-- The state recorded for a name in a merged declaration list (first entry
with that name, if any). -/
def stateLookup (merged : List (String × PackageState × List String)) (n : String) :
    Option PackageState :=
  (merged.find? (fun q => q.1 = n)).map (fun q => q.2.1)

/-- The options recorded for a name in a merged declaration list. -/
def optionsLookup (merged : List (String × PackageState × List String)) (n : String) :
    Option (List String) :=
  (merged.find? (fun q => q.1 = n)).map (fun q => q.2.2)

/-- The `formula_info` list built by `process_formulas` (`shard/apply.rs`
lines 115-138): structured formulas with state ≠ Absent first, then each
simplified `formulae` entry not already named, with state `Latest` and no
options. -/
def collectFormulaInfo (m : Manifest) : List (String × PackageState × List String) :=
  let detailed := (m.formulas.filter (fun f => f.state ≠ PackageState.absent)).map
    (fun f => (f.name, f.state, f.options))
  m.formulae.foldl
    (fun info name =>
      if info.any (fun x => x.1 = name) then info
      else info ++ [(name, PackageState.latest, [])])
    detailed

/-- The `SimplePackage` conversion in `shard/apply.rs` (lines 213-216). -/
def toSimplePackages (info : List (String × PackageState × List String)) :
    List SimplePackage :=
  info.map (fun x => { name := x.1, state := x.2.1, options := x.2.2 })

/-! ### Shard lifecycle manager (`shard/manager.rs`)

The filesystem is abstracted as the sets of active shards, disabled shards
and backups; reading a shard's manifest is abstracted as the
`Option Manifest` it yields, interactive confirmations as booleans, and
whether the backup copy succeeds as a boolean. -/

/-- The filesystem as the lifecycle manager sees it. -/
structure ShardFs where
  active : List String
  disabled : List String
  backups : List String
deriving DecidableEq, Repr

/-- `ShardManager::is_valid_shard_name`: non-empty, alphanumeric plus `_` and
`-`. -/
def is_valid_shard_name (name : String) : Bool :=
  !name.isEmpty && name.data.all (fun c => c.isAlphanum || c = '_' || c = '-')

/-- The hard-coded protected shard names installed by `ShardManager::new`. -/
def default_protected_shards : List String := ["system", "user"]

/-- `ShardManager::is_protected`: true when the name is in the hard-coded
protected list, or the shard's manifest (active or disabled) has the
`protected` flag or a positive `protection_level`. -/
def is_protected (protected_shards : List String) (name : String)
    (mf : Option Manifest) : Bool :=
  if protected_shards.contains name then true
  else
    match mf with
    | some m => m.metadata.«protected» || decide (0 < m.metadata.protection_level)
    | none => false

/-- `ShardManager::can_modify_shard`: delegates to `Manifest::can_modify` on
the shard's manifest; a missing manifest defaults to true. -/
def can_modify_shard (mf : Option Manifest) (current_user : String) : Bool :=
  match mf with
  | some m => m.can_modify current_user
  | none => true

/-- `ShardManager::backup_shard`: fails on a non-existent active shard,
otherwise records a timestamped copy; whether the filesystem copy succeeds is
the explicit `copyOk` input. -/
def backup_shard (fs : ShardFs) (name : String) (copyOk : Bool) :
    Except String ShardFs :=
  if !fs.active.contains name then
    .error ("Cannot backup non-existent shard: " ++ name)
  else if copyOk then
    .ok { fs with backups := fs.backups ++ [name] }
  else
    .error ("Failed to backup shard " ++ name)

/-- `ShardManager::disable_shard` (`shard/manager.rs` lines 371-428): name
validation, the protection gate (with its confirmation prompt), the existence
checks, then backup — whose failure only prints a warning — and the move from
active to disabled. -/
def disable_shard (protected_shards : List String) (current_user : String)
    (mf : Option Manifest) (fs : ShardFs) (name : String)
    (copyOk : Bool) (confirmProtected : Bool) : Except String ShardFs :=
  if !is_valid_shard_name name then
    .error "Invalid shard name"
  else if is_protected protected_shards name mf &&
      !can_modify_shard mf current_user then
    .error ("Cannot disable protected shard: " ++ name)
  else if is_protected protected_shards name mf && !confirmProtected then
    .ok fs
  else if !fs.active.contains name then
    if fs.disabled.contains name then .ok fs
    else .error ("Shard '" ++ name ++ "' not found")
  else
    let fs1 :=
      match backup_shard fs name copyOk with
      | .ok fs' => fs'
      | .error _ => fs
    .ok { fs1 with
          active := fs1.active.filter (fun x => x ≠ name)
          disabled := fs1.disabled ++ [name] }

/-- `ShardManager::shatter_shard` (`shard/manager.rs` lines 299-368): name
validation, the protection gate, the existence checks, the backup of an
active shard — aborting on failure only when `force` is not set — the
deletion confirmation, then removal of the file. -/
def shatter_shard (protected_shards : List String) (current_user : String)
    (mf : Option Manifest) (fs : ShardFs) (name : String)
    (force : Bool) (copyOk : Bool)
    (confirmProtected : Bool) (confirmDelete : Bool) : Except String ShardFs :=
  if !is_valid_shard_name name then
    .error "Invalid shard name"
  else if is_protected protected_shards name mf &&
      !can_modify_shard mf current_user then
    .error ("Cannot delete protected shard: " ++ name)
  else if is_protected protected_shards name mf && !force && !confirmProtected then
    .ok fs
  else
    let is_active := fs.active.contains name
    let is_disabled := fs.disabled.contains name
    if !is_active && !is_disabled then
      .error ("Shard '" ++ name ++ "' not found")
    else
      let backupStep : Except String ShardFs :=
        if is_active then
          match backup_shard fs name copyOk with
          | .ok fs' => .ok fs'
          | .error _ =>
            if !force then .error "Aborting deletion due to backup failure"
            else .ok fs
        else .ok fs
      match backupStep with
      | .error e => .error e
      | .ok fs1 =>
        if !force && !confirmDelete then .ok fs1
        else if is_active then
          .ok { fs1 with active := fs1.active.filter (fun x => x ≠ name) }
        else
          .ok { fs1 with disabled := fs1.disabled.filter (fun x => x ≠ name) }

/-- Decidable equality for actuator results, so that concrete runs can be
checked by `decide`. -/
instance {ε α : Type} [DecidableEq ε] [DecidableEq α] : DecidableEq (Except ε α) := fun a b =>
  match a, b with
  | .ok x, .ok y =>
    if h : x = y then isTrue (by rw [h]) else isFalse (by intro hc; cases hc; exact h rfl)
  | .ok _, .error _ => isFalse (by intro hc; cases hc)
  | .error _, .ok _ => isFalse (by intro hc; cases hc)
  | .error x, .error y =>
    if h : x = y then isTrue (by rw [h]) else isFalse (by intro hc; cases hc; exact h rfl)

/-- Whether a string contains no `':'` (simplified entries with such names
split differently when re-parsed). -/
def colonFree (s : String) : Bool :=
  !s.data.contains ':'

/-- The names column of a merged declaration list (the `processed_names`
vector that `deduplicate_packages` keeps in lockstep with `result`). -/
def namesOf (l : List (String × PackageState × List String)) : List String :=
  l.map (fun q => q.1)

/-- A structurally recursive reformulation of `deduplicatePackagesStep` (the
first entry with the same name is updated in place, a fresh name is appended
at the end); proved equal to the `findIdx?`/`set` form below. -/
def dedupStepRec (p : String × PackageState × List String) :
    List (String × PackageState × List String) → List (String × PackageState × List String)
  | [] => [p]
  | q :: rest =>
    if q.1 = p.1 then
      if p.2.1 = PackageState.latest ∧ q.2.1 ≠ PackageState.latest then
        (q.1, PackageState.latest, if p.2.2.isEmpty then q.2.2 else p.2.2) :: rest
      else q :: rest
    else q :: dedupStepRec p rest

/-- A manifest declaring ("p", Present, ["o1"]); merge-order counterexample. -/
def mergeA : Manifest :=
  { Manifest.new with formulas :=
    [{ name := "p", version := "latest", options := ["o1"], state := PackageState.present }] }

/-- A manifest declaring ("p", Latest, []); merge-order counterexample. -/
def mergeB : Manifest :=
  { Manifest.new with formulas :=
    [{ name := "p", version := "latest", options := [], state := PackageState.latest }] }

/-- A protected manifest that names "alice" in `allowed_users`. -/
def protectedManifest : Manifest :=
  { Manifest.new with metadata :=
    { Manifest.new.metadata with «protected» := true, allowed_users := ["alice"] } }

/-- A manifest with one formula declaration carrying options and state
`Latest`; serialisation flattens both away. -/
def rtManifest : Manifest :=
  { Manifest.new with formulas :=
    [{ name := "git", version := "latest", options := ["--HEAD"], state := PackageState.latest }] }

/-! ## Theorems -/

/-- C7: a declaration with state `Absent` is classified into no bucket at all
when the package is not installed, never touches `toInstall`, `toUpgrade` or
`withOptions`, and is appended to `toUninstall` exactly when the package is
installed; consequently a list of absent, not-installed declarations yields
the empty result. -/
theorem c7_absent_classification (installed : List String)
    (result : PackageProcessResult) (d : SimplePackage) (pkgs : List SimplePackage)
    (h : d.state = PackageState.absent)
    (hall : ∀ p ∈ pkgs, p.state = PackageState.absent ∧ installed.contains p.name = false) :
    (processPackagesStep installed result d).to_install = result.to_install ∧
    (processPackagesStep installed result d).to_upgrade = result.to_upgrade ∧
    (processPackagesStep installed result d).with_options = result.with_options ∧
    (installed.contains d.name = false → processPackagesStep installed result d = result) ∧
    (installed.contains d.name = true →
      processPackagesStep installed result d =
        { result with to_uninstall := result.to_uninstall ++ [d.name] }) ∧
    process_packages installed pkgs = {} := by
  rcases d with ⟨name, state, options⟩
  simp only at h
  subst h
  have key : ∀ r : PackageProcessResult,
      processPackagesStep installed r { name := name, state := PackageState.absent, options := options } =
        if name ∈ installed then { r with to_uninstall := r.to_uninstall ++ [name] } else r := by
    intro r
    by_cases hm : name ∈ installed <;> simp [processPackagesStep, hm]
  refine ⟨?_, ?_, ?_, ?_, ?_, ?_⟩
  · by_cases hm : name ∈ installed <;> simp [key, hm]
  · by_cases hm : name ∈ installed <;> simp [key, hm]
  · by_cases hm : name ∈ installed <;> simp [key, hm]
  · intro hi
    have hm : name ∉ installed := by simpa using hi
    simp [key, hm]
  · intro hi
    have hm : name ∈ installed := by simpa using hi
    simp [key, hm]
  · induction pkgs with
    | nil => rfl
    | cons p rest ih =>
      have hp := hall p (by simp)
      have hrest : ∀ q ∈ rest, q.state = PackageState.absent ∧
          installed.contains q.name = false := fun q hq => hall q (by simp [hq])
      have hstep : processPackagesStep installed {} p = {} := by
        rcases p with ⟨pn, ps, po⟩
        simp only at hp
        rw [hp.1]
        have hm : pn ∉ installed := by simpa using hp.2
        simp [processPackagesStep, hm]
      calc process_packages installed (p :: rest)
          = (p :: rest).foldl (processPackagesStep installed) {} := rfl
        _ = rest.foldl (processPackagesStep installed) (processPackagesStep installed {} p) := by
            simp [List.foldl_cons]
        _ = rest.foldl (processPackagesStep installed) {} := by rw [hstep]
        _ = {} := ih hrest

/-- C7 witness: the theorem applied to the absent declaration "vim" against an
inventory that does and does not contain it. -/
theorem c7_absent_classification_witness :
    (processPackagesStep ["vim"]
        { to_install := ["a"] } { name := "vim", state := PackageState.absent, options := [] }).to_install
      = ["a"] ∧
    (processPackagesStep ["vim"]
        { to_install := ["a"] } { name := "vim", state := PackageState.absent, options := [] }).to_upgrade
      = [] ∧
    (processPackagesStep ["vim"]
        { to_install := ["a"] } { name := "vim", state := PackageState.absent, options := [] }).with_options
      = [] ∧
    ((["vim"] : List String).contains "vim" = false →
      processPackagesStep ["vim"]
        { to_install := ["a"] } { name := "vim", state := PackageState.absent, options := [] } =
        { to_install := ["a"] }) ∧
    ((["vim"] : List String).contains "vim" = true →
      processPackagesStep ["vim"]
        { to_install := ["a"] } { name := "vim", state := PackageState.absent, options := [] } =
        { to_install := ["a"], to_uninstall := [] ++ ["vim"] }) ∧
    process_packages ["vim"] [{ name := "wget", state := PackageState.absent, options := [] }] = {} :=
  c7_absent_classification ["vim"] { to_install := ["a"] }
    { name := "vim", state := PackageState.absent, options := [] }
    [{ name := "wget", state := PackageState.absent, options := [] }]
    rfl (by decide)

/-- C6 counterexample: the declaration ("vim", Present, ["--with-x"]) has
non-empty options and state ≠ Absent, yet when "vim" is installed the
classifier puts it in NO bucket at all — in particular not in `withOptions` —
contradicting the claim that such a declaration always lands in
`withOptions`. -/
theorem c6_counterexample :
    process_packages ["vim"]
      [{ name := "vim", state := PackageState.present, options := ["--with-x"] }] = {} ∧
    (["--with-x"] : List String) ≠ [] := by
  constructor
  · decide
  · decide

/-- C6 amended: a declaration with non-empty options and state ≠ Absent never
enters `toInstall` or `toUpgrade`; with state `Latest` it always goes to
`withOptions`, but with state `Present` it goes to `withOptions` only when
the package is not installed — an installed Present-with-options declaration
produces no bucket entry. -/
theorem c6_options_classification (installed : List String)
    (result : PackageProcessResult) (d : SimplePackage)
    (hopt : d.options ≠ []) (hstate : d.state ≠ PackageState.absent) :
    (processPackagesStep installed result d).to_install = result.to_install ∧
    (processPackagesStep installed result d).to_upgrade = result.to_upgrade ∧
    (d.state = PackageState.latest →
      processPackagesStep installed result d =
        { result with with_options := result.with_options ++ [(d.name, d.options)] }) ∧
    (d.state = PackageState.present → installed.contains d.name = false →
      processPackagesStep installed result d =
        { result with with_options := result.with_options ++ [(d.name, d.options)] }) ∧
    (d.state = PackageState.present → installed.contains d.name = true →
      processPackagesStep installed result d = result) := by
  rcases d with ⟨name, state, options⟩
  simp only at hopt hstate ⊢
  cases options with
  | nil => exact absurd rfl hopt
  | cons o os =>
    cases state with
    | absent => exact absurd rfl hstate
    | latest => simp [processPackagesStep]
    | present =>
      by_cases hm : name ∈ installed <;> simp [processPackagesStep, hm]

/-- C6 witness: the theorem applied to a Latest declaration with options. -/
theorem c6_options_classification_witness :
    (["--with-x"] : List String) ≠ [] ∧ PackageState.latest ≠ PackageState.absent ∧
    ((processPackagesStep ["vim"] {}
        { name := "vim", state := PackageState.latest, options := ["--with-x"] }).to_install = [] ∧
      (processPackagesStep ["vim"] {}
        { name := "vim", state := PackageState.latest, options := ["--with-x"] }).to_upgrade = [] ∧
      (PackageState.latest = PackageState.latest →
        processPackagesStep ["vim"] {}
          { name := "vim", state := PackageState.latest, options := ["--with-x"] } =
          { with_options := [] ++ [("vim", ["--with-x"])] }) ∧
      (PackageState.latest = PackageState.present → (["vim"] : List String).contains "vim" = false →
        processPackagesStep ["vim"] {}
          { name := "vim", state := PackageState.latest, options := ["--with-x"] } =
          { with_options := [] ++ [("vim", ["--with-x"])] }) ∧
      (PackageState.latest = PackageState.present → (["vim"] : List String).contains "vim" = true →
        processPackagesStep ["vim"] {}
          { name := "vim", state := PackageState.latest, options := ["--with-x"] } = {})) :=
  ⟨by decide, by decide,
    c6_options_classification ["vim"] {}
      { name := "vim", state := PackageState.latest, options := ["--with-x"] }
      (by decide) (by decide)⟩

/-- C10: per-package actuator operations are idempotent at the error boundary:
an uninstall whose underlying command reports "is not installed" is converted
to success, an install/upgrade whose command reports "already installed" is
converted to success, success passes through, and any other error message is
returned as the error. -/
theorem c10_error_boundary (m : String) :
    uninstall_package (Except.ok ()) = Except.ok () ∧
    execute_brew_command (Except.ok ()) = Except.ok () ∧
    uninstall_package (Except.error m) =
      (if containsSubstr m "is not installed" then Except.ok () else Except.error m) ∧
    execute_brew_command (Except.error m) =
      (if containsSubstr m "already installed" then Except.ok () else Except.error m) ∧
    uninstall_package (Except.error "Error: zsh is not installed, skipping") = Except.ok () ∧
    execute_brew_command (Except.error "Warning: wget already installed") = Except.ok () ∧
    uninstall_package (Except.error "permission denied") = Except.error "permission denied" ∧
    execute_brew_command (Except.error "permission denied") = Except.error "permission denied" :=
  ⟨rfl, rfl, rfl, rfl, by decide, by decide, by decide, by decide⟩

/-- C8: loading a shard whose file contains only the simplified list
`formulae = ["git"]` yields a structured duplicate with state `Present` (the
serde default), so with "git" already installed the reconciliation pass
classifies it as a no-op instead of the `toUpgrade` that the documented
Latest default for the simplified form would give. -/
theorem c8_simplified_list_not_latest :
    (Manifest.from_file [("formulae", Toml.arr [Toml.str "git"])]).formulas =
      [{ name := "git", version := "latest", options := [], state := PackageState.present }] ∧
    (Manifest.from_file [("formulae", Toml.arr [Toml.str "git"])]).formulae = ["git"] ∧
    collectFormulaInfo (Manifest.from_file [("formulae", Toml.arr [Toml.str "git"])]) =
      [("git", PackageState.present, [])] ∧
    (process_packages ["git"] (toSimplePackages (collectFormulaInfo
      (Manifest.from_file [("formulae", Toml.arr [Toml.str "git"])])))).to_upgrade = [] ∧
    (process_packages ["git"] (toSimplePackages (collectFormulaInfo
      (Manifest.from_file [("formulae", Toml.arr [Toml.str "git"])])))) = {} ∧
    (process_packages ["git"] (toSimplePackages [("git", PackageState.latest, [])])).to_upgrade =
      ["git"] := by
  refine ⟨by decide, by decide, by decide, by decide, by decide, by decide⟩

/-- C2: `Manifest::can_modify` ignores its username argument, so a protected
shard cannot be disabled by ANY user — including "alice", who is listed in
`allowed_users` — contradicting the documented meaning of `allowed_users`
("users allowed to modify this shard even if protected").  The non-allowed
user "bob" is rejected as the claim says. -/
theorem c2_allowed_user_still_blocked :
    protectedManifest.metadata.«protected» = true ∧
    protectedManifest.metadata.allowed_users.contains "alice" = true ∧
    protectedManifest.can_modify "alice" = false ∧
    disable_shard default_protected_shards "alice" (some protectedManifest)
      { active := ["work"], disabled := [], backups := [] } "work" true true =
      Except.error "Cannot disable protected shard: work" ∧
    protectedManifest.metadata.allowed_users.contains "bob" = false ∧
    disable_shard default_protected_shards "bob" (some protectedManifest)
      { active := ["work"], disabled := [], backups := [] } "work" true true =
      Except.error "Cannot disable protected shard: work" := by
  refine ⟨by decide, by decide, by decide, by decide, by decide, by decide⟩

/-- C1 counterexample: with merged desired set empty, the code's implied
uninstall removes "git" — a member of the (spec-modelled) critical-package
allowlist — while the spec's allowlist-filtered computation keeps it; the
code applies no allowlist at all. -/
theorem c1_counterexample :
    (process_implied_uninstalls ["git", "wget", "jq"] [] ["jq"] [] []).formulae =
      ["git", "wget"] ∧
    specImpliedUninstallFormulae ["git", "wget", "jq"] ["jq"] [] = ["wget"] ∧
    criticalAllowlist.contains "git" = true := by
  refine ⟨by decide, by decide, by decide⟩

/-- C1 amended: the implied-uninstall step uninstalls exactly the main
formulae (installed minus dependencies) absent from the merged desired name
set — with no critical-package allowlist — and the casks installed but not
desired (casks are not dependency-filtered); on the spec's example input the
result is exactly ["wget"]. -/
theorem c1_implied_uninstall_amended
    (instF instC deps desF desC : List String) (n : String) :
    (n ∈ (process_implied_uninstalls instF instC deps desF desC).formulae ↔
      n ∈ instF ∧ n ∉ deps ∧ n ∉ desF) ∧
    (n ∈ (process_implied_uninstalls instF instC deps desF desC).casks ↔
      n ∈ instC ∧ n ∉ desC) ∧
    (process_implied_uninstalls ["git", "wget", "jq"] [] ["jq"] ["git"] []).formulae =
      ["wget"] := by
  refine ⟨?_, ?_, by decide⟩
  · simp [process_implied_uninstalls, get_all_main_packages, List.mem_filter, and_assoc]
    tauto
  · simp [process_implied_uninstalls, get_all_main_packages, List.mem_filter]

/-- Running the tap loop over taps whose `add_tap` results are all accepted
appends them all and succeeds. -/
theorem process_taps_run_ok_all (act : String → Except String Unit)
    (acc taps : List String) (h : ∀ t ∈ taps, add_tap (act t) = Except.ok ()) :
    process_taps_run act acc taps = (acc ++ taps, Except.ok ()) := by
  induction taps generalizing acc with
  | nil => simp [process_taps_run]
  | cons t rest ih =>
    have ht := h t (by simp)
    have hrest : ∀ x ∈ rest, add_tap (act x) = Except.ok () := fun x hx => h x (by simp [hx])
    simp [process_taps_run, ht, ih (acc ++ [t]) hrest]

/-- The tap loop walks past a prefix of accepted taps. -/
theorem process_taps_run_append (act : String → Except String Unit)
    (acc pre rest : List String) (hpre : ∀ t ∈ pre, add_tap (act t) = Except.ok ()) :
    process_taps_run act acc (pre ++ rest) = process_taps_run act (acc ++ pre) rest := by
  induction pre generalizing acc with
  | nil => simp
  | cons t ps ih =>
    have ht := hpre t (by simp)
    have hps : ∀ x ∈ ps, add_tap (act x) = Except.ok () := fun x hx => hpre x (by simp [hx])
    simp [process_taps_run, ht, ih (acc ++ [t]) hps]

/-- Running the uninstall loop over packages whose `uninstall_package` results
are all accepted appends them all and succeeds. -/
theorem execute_uninstalls_run_ok_all (act : String → Except String Unit)
    (acc names : List String)
    (h : ∀ n ∈ names, uninstall_package (act n) = Except.ok ()) :
    execute_uninstalls_run act acc names = (acc ++ names, Except.ok ()) := by
  induction names generalizing acc with
  | nil => simp [execute_uninstalls_run]
  | cons n rest ih =>
    have hn := h n (by simp)
    have hrest : ∀ x ∈ rest, uninstall_package (act x) = Except.ok () :=
      fun x hx => h x (by simp [hx])
    simp [execute_uninstalls_run, hn, ih (acc ++ [n]) hrest]

/-- The uninstall loop walks past a prefix of accepted packages. -/
theorem execute_uninstalls_run_append (act : String → Except String Unit)
    (acc pre rest : List String)
    (hpre : ∀ n ∈ pre, uninstall_package (act n) = Except.ok ()) :
    execute_uninstalls_run act acc (pre ++ rest) =
      execute_uninstalls_run act (acc ++ pre) rest := by
  induction pre generalizing acc with
  | nil => simp
  | cons n ps ih =>
    have hn := hpre n (by simp)
    have hps : ∀ x ∈ ps, uninstall_package (act x) = Except.ok () :=
      fun x hx => hpre x (by simp [hx])
    simp [execute_uninstalls_run, hn, ih (acc ++ [n]) hps]

/-- C5 counterexample: a per-tap failure ("network down", not a benign
"already tapped") makes the tap loop return immediately — "tap2" is never
attempted, so the failure DOES abort the remaining pass; likewise a
per-package uninstall failure aborts the remaining batch ("pkg2" is never
attempted). -/
theorem c5_counterexample :
    process_taps_run (fun t => if t = "tap1" then Except.error "network down" else Except.ok ())
      [] ["tap1", "tap2"] = (["tap1"], Except.error "network down") ∧
    execute_uninstalls_run (fun n => if n = "pkg1" then Except.error "disk failure" else Except.ok ())
      [] ["pkg1", "pkg2"] = (["pkg1"], Except.error "disk failure") := by
  refine ⟨by decide, by decide⟩

/-- C5 amended: only failures that the wrappers recognise as benign ("already
tapped" for taps, "is not installed" for uninstalls, "already installed" for
installs/upgrades) are converted to success and let the loop continue; when
every item is accepted the whole list is processed, but the first
non-benign per-item failure is propagated by `?` and aborts the remaining
items of the pass/batch. -/
theorem c5_failure_semantics (act : String → Except String Unit)
    (taps pre post upre upost : List String) (t msg u umsg : String)
    (hall : ∀ x ∈ taps, add_tap (act x) = Except.ok ())
    (hpre : ∀ x ∈ pre, add_tap (act x) = Except.ok ())
    (ht : add_tap (act t) = Except.error msg)
    (hupre : ∀ x ∈ upre, uninstall_package (act x) = Except.ok ())
    (hu : uninstall_package (act u) = Except.error umsg) :
    process_taps_run act [] taps = (taps, Except.ok ()) ∧
    process_taps_run act [] (pre ++ t :: post) = (pre ++ [t], Except.error msg) ∧
    execute_uninstalls_run act [] (upre ++ u :: upost) = (upre ++ [u], Except.error umsg) := by
  refine ⟨?_, ?_, ?_⟩
  · simpa using process_taps_run_ok_all act [] taps hall
  · rw [process_taps_run_append act [] pre (t :: post) hpre]
    simp [process_taps_run, ht]
  · rw [execute_uninstalls_run_append act [] upre (u :: upost) hupre]
    simp [execute_uninstalls_run, hu]

/-- C5 witness: the amended theorem applied to a concrete actuator that
accepts "a", fails "bad" with "boom" and fails "ubad" with "gone". -/
theorem c5_failure_semantics_witness :
    process_taps_run
      (fun s => if s = "a" then Except.ok () else if s = "bad" then Except.error "boom" else Except.error "gone")
      [] ["a"] = (["a"], Except.ok ()) ∧
    process_taps_run
      (fun s => if s = "a" then Except.ok () else if s = "bad" then Except.error "boom" else Except.error "gone")
      [] (["a"] ++ "bad" :: []) = (["a"] ++ ["bad"], Except.error "boom") ∧
    execute_uninstalls_run
      (fun s => if s = "a" then Except.ok () else if s = "bad" then Except.error "boom" else Except.error "gone")
      [] (["a"] ++ "ubad" :: []) = (["a"] ++ ["ubad"], Except.error "gone") :=
  c5_failure_semantics
    (fun s => if s = "a" then Except.ok () else if s = "bad" then Except.error "boom" else Except.error "gone")
    ["a"] ["a"] [] ["a"] [] "bad" "boom" "ubad" "gone"
    (by decide) (by decide) (by decide) (by decide) (by decide)

/-- C4 counterexample: disabling the existing, unprotected shard "work" with
a FAILING backup still succeeds and moves the shard to the disabled set with
no backup recorded — the destructive step proceeds although the backup
failed, contradicting fail-closed. -/
theorem c4_counterexample :
    disable_shard default_protected_shards "alice" none
      { active := ["work"], disabled := [], backups := [] } "work" false true =
      Except.ok { active := [], disabled := ["work"], backups := [] } := by
  decide

/-- C4 amended: deletion (shatter) of an ACTIVE shard without force attempts
a backup first and a failed backup blocks the deletion (fail-closed,
regardless of the confirmation answers); but disable proceeds after a failed
backup with only a warning, forced deletion proceeds despite a failed backup,
and a shard that exists only in the disabled set is deleted without any
backup being attempted. -/
theorem c4_backup_gate (ps : List String) (user : String) (mf : Option Manifest)
    (fs fs2 : ShardFs) (name : String) (confirmP confirmD : Bool)
    (hvalid : is_valid_shard_name name = true)
    (hprot : is_protected ps name mf = false)
    (hactive : fs.active.contains name = true)
    (h2a : fs2.active.contains name = false)
    (h2d : fs2.disabled.contains name = true) :
    shatter_shard ps user mf fs name false false confirmP confirmD =
      Except.error "Aborting deletion due to backup failure" ∧
    disable_shard ps user mf fs name false confirmP =
      Except.ok { fs with active := fs.active.filter (fun x => x ≠ name),
                          disabled := fs.disabled ++ [name] } ∧
    shatter_shard ps user mf fs name true false confirmP confirmD =
      Except.ok { fs with active := fs.active.filter (fun x => x ≠ name) } ∧
    shatter_shard ps user mf fs2 name true true confirmP confirmD =
      Except.ok { fs2 with disabled := fs2.disabled.filter (fun x => x ≠ name) } := by
  have hm : name ∈ fs.active := by simpa using hactive
  have hm2a : name ∉ fs2.active := by simpa using h2a
  have hm2d : name ∈ fs2.disabled := by simpa using h2d
  refine ⟨?_, ?_, ?_, ?_⟩
  · simp [shatter_shard, backup_shard, hvalid, hprot, hm]
  · simp [disable_shard, backup_shard, hvalid, hprot, hm]
  · simp [shatter_shard, backup_shard, hvalid, hprot, hm]
  · simp [shatter_shard, backup_shard, hvalid, hprot, hm2a, hm2d]

/-- C4 witness: the amended theorem applied to the active shard "work" and
the disabled-only shard fs2. -/
theorem c4_backup_gate_witness :
    is_valid_shard_name "work" = true ∧
    is_protected default_protected_shards "work" none = false ∧
    (shatter_shard default_protected_shards "alice" none
        { active := ["work"], disabled := [], backups := [] } "work" false false true true =
        Except.error "Aborting deletion due to backup failure" ∧
      disable_shard default_protected_shards "alice" none
        { active := ["work"], disabled := [], backups := [] } "work" false true =
        Except.ok { active := List.filter (fun x => x ≠ "work") ["work"], disabled := [] ++ ["work"],
                    backups := [] } ∧
      shatter_shard default_protected_shards "alice" none
        { active := ["work"], disabled := [], backups := [] } "work" true false true true =
        Except.ok { active := List.filter (fun x => x ≠ "work") ["work"], disabled := [],
                    backups := [] } ∧
      shatter_shard default_protected_shards "alice" none
        { active := [], disabled := ["work"], backups := [] } "work" true true true true =
        Except.ok { active := [], disabled := List.filter (fun x => x ≠ "work") ["work"],
                    backups := [] }) :=
  ⟨by decide, by decide,
    c4_backup_gate default_protected_shards "alice" none
      { active := ["work"], disabled := [], backups := [] }
      { active := [], disabled := ["work"], backups := [] }
      "work" true true (by decide) (by decide) (by decide) (by decide) (by decide)⟩

/-! ### Round-trip lemmas (C3) -/

theorem tomlGet_nil (k : String) : tomlGet [] k = none := rfl

theorem tomlGet_cons_self (k : String) (v : Toml) (t : List (String × Toml)) :
    tomlGet ((k, v) :: t) k = some v := by
  simp [tomlGet]

theorem tomlGet_cons_ne {k k' : String} {v : Toml} {t : List (String × Toml)}
    (h : k' ≠ k) : tomlGet ((k', v) :: t) k = tomlGet t k := by
  simp [tomlGet, h]

theorem tomlGet_append (a b : List (String × Toml)) (k : String) :
    tomlGet (a ++ b) k = (tomlGet a k).or (tomlGet b k) := by
  unfold tomlGet
  rw [List.find?_append]
  cases a.find? (fun kv => kv.1 = k) <;> simp

theorem isEmpty_map {α β : Type} (l : List α) (f : α → β) :
    (l.map f).isEmpty = l.isEmpty := by
  cases l <;> simp

theorem filterMap_asStr_map_str (xs : List String) :
    (xs.map Toml.str).filterMap Toml.asStr? = xs := by
  induction xs with
  | nil => rfl
  | cons x rest ih => simp [Toml.asStr?, ih]

theorem string_mk_data (s : String) : String.mk s.data = s := rfl

theorem taps_roundtrip_list (ts : List Tap) :
    ((ts.map (fun t => Toml.str t.name)).filterMap Toml.asStr?).map
      (fun s => ({ name := s } : Tap)) = ts := by
  induction ts with
  | nil => rfl
  | cons t rest ih =>
    rw [List.filterMap_map] at ih
    simp [Toml.asStr?]
    exact ih

theorem from_file_metadata (parsed : List (String × Toml)) :
    (Manifest.from_file parsed).metadata = parseMetadata parsed := rfl

theorem from_file_taps (parsed : List (String × Toml)) :
    (Manifest.from_file parsed).taps =
      (tomlStringArray (tomlGet parsed "taps")).map (fun s => ({ name := s } : Tap)) := rfl

theorem from_file_formulas (parsed : List (String × Toml)) :
    (Manifest.from_file parsed).formulas =
      tomlFilterArray (tomlGet parsed "formulas") parseStructuredFormula ++
        (tomlStringArray (tomlGet parsed "formulae")).map parseSimplifiedFormula := rfl

theorem from_file_casks (parsed : List (String × Toml)) :
    (Manifest.from_file parsed).casks =
      tomlFilterArray (tomlGet parsed "casks") parseStructuredCask ++
        (tomlStringArray (tomlGet parsed "brews")).map parseSimplifiedCask := rfl

theorem asStr_str (x : String) : Toml.asStr? (Toml.str x) = some x := rfl

theorem tomlStringArray_none : tomlStringArray none = [] := rfl

theorem tomlStringArray_map_str (ss : List String) :
    tomlStringArray (some (Toml.arr (ss.map Toml.str))) = ss := by
  show (ss.map Toml.str).filterMap Toml.asStr? = ss
  exact filterMap_asStr_map_str ss

theorem tomlFilterArray_none {α : Type} (f : Toml → Option α) :
    tomlFilterArray none f = [] := rfl

theorem splitOnceList_not_mem (c : Char) (l : List Char) (h : c ∉ l) :
    splitOnceList c l = none := by
  induction l with
  | nil => rfl
  | cons x xs ih =>
    have hx : x ≠ c := fun hc => h (hc ▸ List.mem_cons_self x xs)
    have hxs : c ∉ xs := fun hc => h (List.mem_cons_of_mem x hc)
    simp [splitOnceList, hx, ih hxs]

theorem splitOnceList_append (c : Char) (l1 l2 : List Char) (h : c ∉ l1) :
    splitOnceList c (l1 ++ c :: l2) = some (l1, l2) := by
  induction l1 with
  | nil => simp [splitOnceList]
  | cons x xs ih =>
    have hx : x ≠ c := fun hc => h (hc ▸ List.mem_cons_self x xs)
    have hxs : c ∉ xs := fun hc => h (List.mem_cons_of_mem x hc)
    simp [splitOnceList, hx, ih hxs]

/-- Re-parsing the simplified string emitted for a clean structured formula
recovers its name and version, with the options dropped and the state reset
to the serde default `Present`. -/
theorem parseSimplifiedFormula_entry (f : Formula) (h1 : colonFree f.name = true)
    (h2 : strTrim f.name = f.name) (h3 : strTrim f.version = f.version) :
    parseSimplifiedFormula (formulaEntryString f.name f.version) =
      { f with options := [], state := PackageState.present } := by
  have hnm : (':' : Char) ∉ f.name.data := by simpa [colonFree] using h1
  by_cases hv : f.version = "latest"
  · simp only [formulaEntryString, if_pos hv, parseSimplifiedFormula, splitOnce,
      splitOnceList_not_mem ':' f.name.data hnm, h2, default_state]
    rw [← hv]
  · have hdata : (f.name ++ ":" ++ f.version).data = f.name.data ++ ':' :: f.version.data := by
      simp [String.data_append]
    simp only [formulaEntryString, if_neg hv, parseSimplifiedFormula, splitOnce, hdata,
      splitOnceList_append ':' f.name.data f.version.data hnm, string_mk_data, h2, h3,
      default_state]

/-- Cask version of `parseSimplifiedFormula_entry`. -/
theorem parseSimplifiedCask_entry (c : Cask) (h1 : colonFree c.name = true)
    (h2 : strTrim c.name = c.name) (h3 : strTrim c.version = c.version) :
    parseSimplifiedCask (formulaEntryString c.name c.version) =
      { c with options := [], state := PackageState.present } := by
  have hnm : (':' : Char) ∉ c.name.data := by simpa [colonFree] using h1
  by_cases hv : c.version = "latest"
  · simp only [formulaEntryString, if_pos hv, parseSimplifiedCask, splitOnce,
      splitOnceList_not_mem ':' c.name.data hnm, h2, default_state]
    rw [← hv]
  · have hdata : (c.name ++ ":" ++ c.version).data = c.name.data ++ ':' :: c.version.data := by
      simp [String.data_append]
    simp only [formulaEntryString, if_neg hv, parseSimplifiedCask, splitOnce, hdata,
      splitOnceList_append ':' c.name.data c.version.data hnm, string_mk_data, h2, h3,
      default_state]

/-- Parsing back the metadata table written by `Manifest::to_file` recovers
the metadata exactly (the `u8` protection level survives the `% 256` cast). -/
theorem parseMetadata_round (parsed : List (String × Toml)) (md : Metadata)
    (hg : tomlGet parsed "metadata" = some (Toml.table (metadataTable md)))
    (hpl : md.protection_level < 256) :
    parseMetadata parsed = md := by
  have hcast : (((md.protection_level : Int)) % 256).toNat = md.protection_level := by
    rw [Int.emod_eq_of_lt (by positivity) (by exact_mod_cast hpl)]
    exact Int.toNat_natCast md.protection_level
  unfold parseMetadata
  rw [hg]
  simp only [Option.some_bind, Toml.asTable?, metadataTable, tomlGet_cons_self,
    tomlGet_cons_ne (by decide : ("description" : String) ≠ "protected"),
    tomlGet_cons_ne (by decide : ("description" : String) ≠ "version"),
    tomlGet_cons_ne (by decide : ("protected" : String) ≠ "version"),
    tomlGet_cons_ne (by decide : ("description" : String) ≠ "allowed_users"),
    tomlGet_cons_ne (by decide : ("protected" : String) ≠ "allowed_users"),
    tomlGet_cons_ne (by decide : ("version" : String) ≠ "allowed_users"),
    tomlGet_cons_ne (by decide : ("description" : String) ≠ "protection_level"),
    tomlGet_cons_ne (by decide : ("protected" : String) ≠ "protection_level"),
    tomlGet_cons_ne (by decide : ("version" : String) ≠ "protection_level"),
    tomlGet_cons_ne (by decide : ("allowed_users" : String) ≠ "protection_level"),
    Toml.asStr?, Toml.asBool?, Toml.asInteger?, Option.getD_some,
    tomlStringArray_map_str, hcast]

theorem to_file_get_metadata (m : Manifest) :
    tomlGet m.to_file "metadata" = some (Toml.table (metadataTable m.metadata)) := by
  unfold Manifest.to_file
  simp [tomlGet_cons_self]

theorem to_file_get_structured_none (m : Manifest) :
    tomlGet m.to_file "formulas" = none ∧ tomlGet m.to_file "casks" = none := by
  unfold Manifest.to_file
  by_cases h1 : (m.taps.map (fun t => Toml.str t.name)).isEmpty <;>
    by_cases h2 : ((formulaeStrings m).map Toml.str).isEmpty <;>
      by_cases h3 : ((brewsStrings m).map Toml.str).isEmpty <;>
        simp [h1, h2, h3, tomlGet_append, tomlGet_cons_self, tomlGet_cons_ne, tomlGet_nil, tomlGet]

theorem to_file_get_taps (m : Manifest) :
    tomlGet m.to_file "taps" =
      if m.taps.isEmpty then none
      else some (Toml.arr (m.taps.map (fun t => Toml.str t.name))) := by
  unfold Manifest.to_file
  by_cases h1 : m.taps.isEmpty <;>
    by_cases h2 : ((formulaeStrings m).map Toml.str).isEmpty <;>
      by_cases h3 : ((brewsStrings m).map Toml.str).isEmpty <;>
        simp [h1, h2, h3, isEmpty_map, tomlGet_append, tomlGet_cons_self, tomlGet_cons_ne,
          tomlGet_nil, tomlGet]

theorem to_file_get_formulae (m : Manifest) :
    tomlGet m.to_file "formulae" =
      if (formulaeStrings m).isEmpty then none
      else some (Toml.arr ((formulaeStrings m).map Toml.str)) := by
  unfold Manifest.to_file
  by_cases h1 : (m.taps.map (fun t => Toml.str t.name)).isEmpty <;>
    by_cases h2 : (formulaeStrings m).isEmpty <;>
      by_cases h3 : ((brewsStrings m).map Toml.str).isEmpty <;>
        simp [h1, h2, h3, isEmpty_map, tomlGet_append, tomlGet_cons_self, tomlGet_cons_ne,
          tomlGet_nil, tomlGet]

theorem to_file_get_brews (m : Manifest) :
    tomlGet m.to_file "brews" =
      if (brewsStrings m).isEmpty then none
      else some (Toml.arr ((brewsStrings m).map Toml.str)) := by
  unfold Manifest.to_file
  by_cases h1 : (m.taps.map (fun t => Toml.str t.name)).isEmpty <;>
    by_cases h2 : ((formulaeStrings m).map Toml.str).isEmpty <;>
      by_cases h3 : (brewsStrings m).isEmpty <;>
        simp [h1, h2, h3, isEmpty_map, tomlGet_append, tomlGet_cons_self, tomlGet_cons_ne,
          tomlGet_nil, tomlGet]

theorem formulaeStrings_of_empty (m : Manifest) (h : m.formulae = []) :
    formulaeStrings m = m.formulas.map (fun f => formulaEntryString f.name f.version) := by
  simp [formulaeStrings, h]

theorem brewsStrings_of_empty (m : Manifest) (h : m.brews = []) :
    brewsStrings m = m.casks.map (fun c => formulaEntryString c.name c.version) := by
  simp [brewsStrings, h]

/-- C3 counterexample: a manifest whose single formula declaration carries
options ["--HEAD"] and state Latest round-trips to a declaration with EMPTY
options and state Present — `to_file` flattens every structured declaration to
the simplified "name" / "name:version" string, so `parse(serialize(m))` is
not declaration-set-equal to `m`. -/
theorem c3_counterexample :
    declSetEq (Manifest.from_file (Manifest.to_file rtManifest)) rtManifest = false ∧
    rtManifest.formulas =
      [{ name := "git", version := "latest", options := ["--HEAD"], state := PackageState.latest }] ∧
    (Manifest.from_file (Manifest.to_file rtManifest)).formulas =
      [{ name := "git", version := "latest", options := [], state := PackageState.present }] := by
  refine ⟨by decide, by decide, by decide⟩

/-- C3 amended: for a manifest whose simplified string lists are empty and
whose declaration names/versions are colon-free and whitespace-trimmed,
`parse(serialize(m))` preserves the metadata, the tap list, and every
declaration's name and version — but every parsed declaration comes back with
empty options and state Present, so declaration-set equality holds only for
manifests whose declarations all have no options and state Present. -/
theorem c3_round_trip (m : Manifest)
    (hff : m.formulae = []) (hbb : m.brews = [])
    (hf : ∀ f ∈ m.formulas,
      colonFree f.name = true ∧ strTrim f.name = f.name ∧ strTrim f.version = f.version)
    (hc : ∀ c ∈ m.casks,
      colonFree c.name = true ∧ strTrim c.name = c.name ∧ strTrim c.version = c.version)
    (hpl : m.metadata.protection_level < 256) :
    (Manifest.from_file (Manifest.to_file m)).metadata = m.metadata ∧
    (Manifest.from_file (Manifest.to_file m)).taps = m.taps ∧
    (Manifest.from_file (Manifest.to_file m)).formulas =
      m.formulas.map (fun f => { f with options := [], state := PackageState.present }) ∧
    (Manifest.from_file (Manifest.to_file m)).casks =
      m.casks.map (fun c => { c with options := [], state := PackageState.present }) := by
  refine ⟨?_, ?_, ?_, ?_⟩
  · rw [from_file_metadata]
    exact parseMetadata_round _ _ (to_file_get_metadata m) hpl
  · rw [from_file_taps, to_file_get_taps m]
    by_cases ht : m.taps.isEmpty
    · have h0 : m.taps = [] := by simpa [List.isEmpty_iff] using ht
      simp [ht, h0, tomlStringArray_none]
    · rw [if_neg ht]
      show ((m.taps.map (fun t => Toml.str t.name)).filterMap Toml.asStr?).map
        (fun s => ({ name := s } : Tap)) = m.taps
      exact taps_roundtrip_list m.taps
  · rw [from_file_formulas, (to_file_get_structured_none m).1, to_file_get_formulae m]
    by_cases he : (formulaeStrings m).isEmpty
    · have h0 : formulaeStrings m = [] := by simpa [List.isEmpty_iff] using he
      have h1 : m.formulas = [] := by
        have h2 := formulaeStrings_of_empty m hff
        rw [h0] at h2
        simpa using h2.symm
      rw [if_pos he, tomlStringArray_none, tomlFilterArray_none]
      simp [h1]
    · rw [if_neg he, tomlStringArray_map_str, formulaeStrings_of_empty m hff,
        tomlFilterArray_none]
      simp only [List.nil_append, List.map_map]
      exact List.map_congr_left (fun f hfmem => by
        have h := hf f hfmem
        exact parseSimplifiedFormula_entry f h.1 h.2.1 h.2.2)
  · rw [from_file_casks, (to_file_get_structured_none m).2, to_file_get_brews m]
    by_cases he : (brewsStrings m).isEmpty
    · have h0 : brewsStrings m = [] := by simpa [List.isEmpty_iff] using he
      have h1 : m.casks = [] := by
        have h2 := brewsStrings_of_empty m hbb
        rw [h0] at h2
        simpa using h2.symm
      rw [if_pos he, tomlStringArray_none, tomlFilterArray_none]
      simp [h1]
    · rw [if_neg he, tomlStringArray_map_str, brewsStrings_of_empty m hbb,
        tomlFilterArray_none]
      simp only [List.nil_append, List.map_map]
      exact List.map_congr_left (fun c hcmem => by
        have h := hc c hcmem
        exact parseSimplifiedCask_entry c h.1 h.2.1 h.2.2)

/-- C3 witness: the amended round-trip theorem applied to `rtManifest`. -/
theorem c3_round_trip_witness :
    rtManifest.formulae = [] ∧ rtManifest.brews = [] ∧
    ((Manifest.from_file (Manifest.to_file rtManifest)).metadata = rtManifest.metadata ∧
      (Manifest.from_file (Manifest.to_file rtManifest)).taps = rtManifest.taps ∧
      (Manifest.from_file (Manifest.to_file rtManifest)).formulas =
        rtManifest.formulas.map (fun f => { f with options := [], state := PackageState.present }) ∧
      (Manifest.from_file (Manifest.to_file rtManifest)).casks =
        rtManifest.casks.map (fun c => { c with options := [], state := PackageState.present })) :=
  ⟨rfl, rfl,
    c3_round_trip rtManifest rfl rfl (by decide) (by decide) (by decide)⟩

/-! ### Merge lemmas (C9) -/

theorem step_eq_rec (p : String × PackageState × List String)
    (acc : List (String × PackageState × List String)) :
    deduplicatePackagesStep acc p = dedupStepRec p acc := by
  induction acc with
  | nil => rfl
  | cons q rest ih =>
    by_cases hq : q.1 = p.1
    · by_cases hc : p.2.1 = PackageState.latest ∧ q.2.1 ≠ PackageState.latest <;>
        simp [deduplicatePackagesStep, dedupStepRec, List.findIdx?_cons, hq, hc]
    · unfold deduplicatePackagesStep dedupStepRec
      rw [List.findIdx?_cons, if_neg (by simp [hq]), if_neg hq, ← ih,
        List.findIdx?_succ]
      unfold deduplicatePackagesStep
      cases hfi : List.findIdx? (fun x => decide (x.1 = p.1)) rest with
      | none => simp [hfi]
      | some i =>
        simp only [hfi, Option.map_some]
        cases hget : rest[i]? with
        | none => simp [hget]
        | some qq =>
          by_cases hc : p.2.1 = PackageState.latest ∧ qq.2.1 ≠ PackageState.latest <;>
            simp [hget, hc]

theorem dedupStepRec_fresh (p : String × PackageState × List String)
    (l : List (String × PackageState × List String)) (h : ∀ q ∈ l, q.1 ≠ p.1) :
    dedupStepRec p l = l ++ [p] := by
  induction l with
  | nil => rfl
  | cons q rest ih =>
    have hq : q.1 ≠ p.1 := h q (by simp)
    simp [dedupStepRec, hq, ih (fun x hx => h x (by simp [hx]))]

theorem namesOf_append (a b : List (String × PackageState × List String)) :
    namesOf (a ++ b) = namesOf a ++ namesOf b := by
  simp [namesOf]

theorem namesOf_cons (q : String × PackageState × List String)
    (l : List (String × PackageState × List String)) :
    namesOf (q :: l) = q.1 :: namesOf l := rfl

theorem namesOf_dedupStepRec (p : String × PackageState × List String)
    (l : List (String × PackageState × List String)) :
    namesOf (dedupStepRec p l) =
      if l.any (fun q => q.1 = p.1) then namesOf l else namesOf l ++ [p.1] := by
  induction l with
  | nil => simp [dedupStepRec, namesOf]
  | cons q rest ih =>
    by_cases hq : q.1 = p.1
    · by_cases hc : p.2.1 = PackageState.latest ∧ q.2.1 ≠ PackageState.latest <;>
        simp [dedupStepRec, namesOf, hq, hc]
    · rw [show dedupStepRec p (q :: rest) = q :: dedupStepRec p rest from by
        simp [dedupStepRec, hq]]
      rw [namesOf_cons, ih, namesOf_cons]
      by_cases ha : rest.any (fun x => decide (x.1 = p.1)) = true <;>
        simp [List.any_cons, hq, ha]

theorem namesOf_nodup_dedupStepRec (p : String × PackageState × List String)
    (l : List (String × PackageState × List String)) (h : (namesOf l).Nodup) :
    (namesOf (dedupStepRec p l)).Nodup := by
  rw [namesOf_dedupStepRec]
  by_cases ha : l.any (fun q => q.1 = p.1) = true
  · simp [ha, h]
  · have hnm : p.1 ∉ namesOf l := by
      intro hmem
      rcases List.mem_map.mp hmem with ⟨q, hq, hq1⟩
      exact absurd (List.any_eq_true.mpr ⟨q, hq, by simp [hq1]⟩) ha
    simp [ha, List.nodup_append, h, hnm]

theorem foldl_step_nodup (m acc : List (String × PackageState × List String))
    (h : (namesOf (acc ++ m)).Nodup) :
    m.foldl deduplicatePackagesStep acc = acc ++ m := by
  induction m generalizing acc with
  | nil => simp
  | cons p rest ih =>
    have hsplit : (namesOf acc).Disjoint (namesOf (p :: rest)) := by
      rw [namesOf_append] at h
      exact (List.nodup_append.mp h).2.2
    have hfresh : ∀ q ∈ acc, q.1 ≠ p.1 := by
      intro q hq heq
      exact hsplit (List.mem_map.mpr ⟨q, hq, rfl⟩) (by simp [namesOf, ← heq])
    have hstep : deduplicatePackagesStep acc p = acc ++ [p] := by
      rw [step_eq_rec]
      exact dedupStepRec_fresh p acc hfresh
    rw [List.foldl_cons, hstep]
    have hgoal : acc ++ p :: rest = (acc ++ [p]) ++ rest := by simp
    rw [hgoal]
    exact ih (acc ++ [p]) (by simpa using h)

theorem deduplicate_packages_namesOf_nodup
    (l : List (String × PackageState × List String)) :
    (namesOf (deduplicate_packages l)).Nodup := by
  suffices h : ∀ acc, (namesOf acc).Nodup →
      (namesOf (l.foldl deduplicatePackagesStep acc)).Nodup from
    h [] (by simp [namesOf])
  induction l with
  | nil => intro acc h; simpa using h
  | cons p rest ih =>
    intro acc h
    rw [List.foldl_cons]
    refine ih _ ?_
    rw [step_eq_rec]
    exact namesOf_nodup_dedupStepRec p acc h

theorem deduplicate_packages_idem (l : List (String × PackageState × List String)) :
    deduplicate_packages (deduplicate_packages l) = deduplicate_packages l := by
  have h := deduplicate_packages_namesOf_nodup l
  have h2 := foldl_step_nodup (deduplicate_packages l) [] (by simpa using h)
  simpa [deduplicate_packages] using h2

theorem deduplicate_packages_append_left
    (x z : List (String × PackageState × List String)) :
    deduplicate_packages (deduplicate_packages x ++ z) = deduplicate_packages (x ++ z) := by
  show (deduplicate_packages x ++ z).foldl deduplicatePackagesStep [] =
    (x ++ z).foldl deduplicatePackagesStep []
  rw [List.foldl_append, List.foldl_append]
  congr 1
  exact deduplicate_packages_idem x

theorem stateLookup_cons (q : String × PackageState × List String)
    (l : List (String × PackageState × List String)) (n : String) :
    stateLookup (q :: l) n = if q.1 = n then some q.2.1 else stateLookup l n := by
  by_cases h : q.1 = n
  · unfold stateLookup
    rw [List.find?_cons_of_pos _ (by simp [h])]
    simp [h]
  · unfold stateLookup
    rw [List.find?_cons_of_neg _ (by simp [h])]
    simp [h]

theorem stateLookup_dedupStepRec_ne (p : String × PackageState × List String)
    (l : List (String × PackageState × List String)) (n : String) (hne : p.1 ≠ n) :
    stateLookup (dedupStepRec p l) n = stateLookup l n := by
  induction l with
  | nil => simp [dedupStepRec, stateLookup_cons, hne, stateLookup]
  | cons q rest ih =>
    by_cases hq : q.1 = p.1
    · have hqn : q.1 ≠ n := by rw [hq]; exact hne
      by_cases hc : p.2.1 = PackageState.latest ∧ q.2.1 ≠ PackageState.latest <;>
        simp [dedupStepRec, hq, hc, stateLookup_cons, hqn, hne, Ne.symm hne]
    · by_cases hqn : q.1 = n <;>
        simp [dedupStepRec, hq, stateLookup_cons, hqn, ih, hne, Ne.symm hne]

theorem stateLookup_dedupStepRec_self (p : String × PackageState × List String)
    (l : List (String × PackageState × List String)) :
    stateLookup (dedupStepRec p l) p.1 =
      some (match stateLookup l p.1 with
        | none => p.2.1
        | some s => if p.2.1 = PackageState.latest then PackageState.latest else s) := by
  induction l with
  | nil => simp [dedupStepRec, stateLookup_cons, stateLookup]
  | cons q rest ih =>
    by_cases hq : q.1 = p.1
    · by_cases hc : p.2.1 = PackageState.latest ∧ q.2.1 ≠ PackageState.latest
      · simp [dedupStepRec, hq, hc, stateLookup_cons, hc.1]
      · by_cases hp : p.2.1 = PackageState.latest
        · have hql : q.2.1 = PackageState.latest := by
            by_contra hcon
            exact hc ⟨hp, hcon⟩
          simp [dedupStepRec, hq, hc, stateLookup_cons, hp, hql]
        · simp [dedupStepRec, hq, hc, stateLookup_cons, hp]
    · simp [dedupStepRec, hq, stateLookup_cons, ih]

theorem deduplicate_packages_stateLookup
    (l : List (String × PackageState × List String))
    (hab : ∀ p ∈ l, p.2.1 ≠ PackageState.absent) (n : String) :
    stateLookup (deduplicate_packages l) n =
      if l.any (fun p => p.1 = n && decide (p.2.1 = PackageState.latest)) then
        some PackageState.latest
      else if l.any (fun p => p.1 = n) then some PackageState.present
      else none := by
  induction l using List.reverseRecOn with
  | nil => simp [deduplicate_packages, stateLookup]
  | append_singleton l p ih =>
    have hab' : ∀ q ∈ l, q.2.1 ≠ PackageState.absent := fun q hq => hab q (by simp [hq])
    have habp : p.2.1 ≠ PackageState.absent := hab p (by simp)
    have hd : deduplicate_packages (l ++ [p]) = dedupStepRec p (deduplicate_packages l) := by
      show (l ++ [p]).foldl deduplicatePackagesStep [] = _
      rw [List.foldl_append, List.foldl_cons, List.foldl_nil, step_eq_rec]
      rfl
    rw [hd]
    by_cases hn : p.1 = n
    · subst hn
      rw [stateLookup_dedupStepRec_self, ih hab']
      by_cases h1 : l.any (fun q => q.1 = p.1 && decide (q.2.1 = PackageState.latest)) = true
      · simp [h1, List.any_append]
      · by_cases h2 : l.any (fun q => q.1 = p.1) = true
        · by_cases hp : p.2.1 = PackageState.latest <;>
            simp [h1, h2, List.any_append, hp]
        · by_cases hp : p.2.1 = PackageState.latest
          · simp [h1, h2, List.any_append, hp]
          · have hpp : p.2.1 = PackageState.present := by
              cases hcase : p.2.1 <;> simp_all
            simp [h1, h2, List.any_append, hp, hpp]
    · rw [stateLookup_dedupStepRec_ne p _ n hn, ih hab']
      simp only [List.any_append, List.any_cons, List.any_nil, hn, decide_eq_true_eq,
        Bool.false_and, Bool.or_false, Bool.false_or, decide_False]

theorem perm_any (l l' : List (String × PackageState × List String))
    (hp : l.Perm l') (f : String × PackageState × List String → Bool) :
    l.any f = l'.any f := by
  cases ha : l.any f
  · cases hb : l'.any f
    · rfl
    · rcases List.any_eq_true.mp hb with ⟨x, hx, hfx⟩
      have : l.any f = true := List.any_eq_true.mpr ⟨x, hp.mem_iff.mpr hx, hfx⟩
      rw [ha] at this
      exact absurd this (by simp)
  · rcases List.any_eq_true.mp ha with ⟨x, hx, hfx⟩
    exact (List.any_eq_true.mpr ⟨x, hp.mem_iff.mp hx, hfx⟩).symm

/-- C9 counterexample: the "first non-empty options list wins" clause and
order-independence both fail.  For ("p", Present, ["o1"]) then ("p", Latest,
["o2"]), the merged options are ["o2"], not the first non-empty ["o1"];
and merging manifests mergeA = {("p", Present, ["o1"])} and mergeB =
{("p", Latest, [])} gives options ["o1"] in one order and [] in the other,
so permuting the manifest list changes the merged (name, state, options)
set. -/
theorem c9_counterexample :
    deduplicate_packages [("p", PackageState.present, ["o1"]), ("p", PackageState.latest, ["o2"])] =
      [("p", PackageState.latest, ["o2"])] ∧
    mergeManifests [mergeA, mergeB] = [("p", PackageState.latest, ["o1"])] ∧
    mergeManifests [mergeB, mergeA] = [("p", PackageState.latest, [])] ∧
    mergeManifests [mergeA, mergeB] ≠ mergeManifests [mergeB, mergeA] := by
  refine ⟨by decide, by decide, by decide, by decide⟩

/-- C9 amended: the multi-manifest merge is associative —
`merge(merge([a,b]),[c])` equals `merge([a,b,c])` — and the merged (name,
state) view is order-independent: for declaration lists that are permutations
of each other (with no Absent states, as in the merge pipeline), every name
gets state Latest when any occurrence declares Latest, else Present.  The
merged OPTIONS, however, are order-dependent (see the counterexample): the
first occurrence's options win unless a later Latest occurrence with
non-empty options replaces them. -/
theorem c9_merge_order (x y z l l' : List (String × PackageState × List String))
    (a b c : Manifest) (n : String)
    (hp : l.Perm l')
    (hab : ∀ q ∈ l, q.2.1 ≠ PackageState.absent) :
    deduplicate_packages (deduplicate_packages (x ++ y) ++ z) =
      deduplicate_packages ((x ++ y) ++ z) ∧
    mergeManifests [a, b, c] =
      deduplicate_packages (mergeManifests [a, b] ++ manifestFormulaDecls c) ∧
    stateLookup (deduplicate_packages l) n = stateLookup (deduplicate_packages l') n := by
  refine ⟨deduplicate_packages_append_left (x ++ y) z, ?_, ?_⟩
  · have h := deduplicate_packages_append_left
      (manifestFormulaDecls a ++ manifestFormulaDecls b) (manifestFormulaDecls c)
    simp only [mergeManifests, collectManifestFormulae, List.map_cons, List.map_nil,
      List.flatten_cons, List.flatten_nil, List.append_nil, List.append_assoc] at h ⊢
    rw [h]
  · have hab' : ∀ q ∈ l', q.2.1 ≠ PackageState.absent :=
      fun q hq => hab q (hp.mem_iff.mpr hq)
    rw [deduplicate_packages_stateLookup l hab n,
      deduplicate_packages_stateLookup l' hab' n,
      perm_any l l' hp, perm_any l l' hp]

/-- C9 witness: the amended theorem applied to concrete declaration lists and
manifests. -/
theorem c9_merge_order_witness :
    ([("a", PackageState.latest, []), ("b", PackageState.present, [])] :
        List (String × PackageState × List String)).Perm
      [("b", PackageState.present, []), ("a", PackageState.latest, [])] ∧
    (deduplicate_packages
        (deduplicate_packages ([("a", PackageState.present, ["x"])] ++
          [("a", PackageState.latest, [])]) ++ [("b", PackageState.present, [])]) =
      deduplicate_packages (([("a", PackageState.present, ["x"])] ++
        [("a", PackageState.latest, [])]) ++ [("b", PackageState.present, [])]) ∧
      mergeManifests [mergeA, mergeB, Manifest.new] =
        deduplicate_packages (mergeManifests [mergeA, mergeB] ++
          manifestFormulaDecls Manifest.new) ∧
      stateLookup (deduplicate_packages
          [("a", PackageState.latest, []), ("b", PackageState.present, [])]) "a" =
        stateLookup (deduplicate_packages
          [("b", PackageState.present, []), ("a", PackageState.latest, [])]) "a") :=
  ⟨List.Perm.swap ("b", PackageState.present, []) ("a", PackageState.latest, []) [],
    c9_merge_order [("a", PackageState.present, ["x"])] [("a", PackageState.latest, [])]
      [("b", PackageState.present, [])]
      [("a", PackageState.latest, []), ("b", PackageState.present, [])]
      [("b", PackageState.present, []), ("a", PackageState.latest, [])]
      mergeA mergeB Manifest.new "a"
      (List.Perm.swap ("b", PackageState.present, []) ("a", PackageState.latest, []) [])
      (by decide)⟩

end Sapphire
